import Mathlib

/-!
Verification development for the Hy compiler front end: a shallow embedding
of `src/tokenization.hpp` (token kinds, binary-operator precedence, the
single-pass tokenizer) and `src/arena.hpp` (the bump-pointer arena
allocator), together with theorems about the embedded definitions.
-/

/-! ## Token kinds (`enum class TokenType`, tokenization.hpp) -/

/-- The closed enumeration of token kinds, mirroring `enum class TokenType`.
`let`, `if`, `else`, `for` are Lean keywords, so those constructors carry a
trailing underscore (the C++ source itself writes `if_`, `else_`, `for_`). -/
inductive TokenType where
  | exit
  | int_lit
  | semi
  | open_paren
  | close_paren
  | ident
  | let_
  | eq
  | plus
  | star
  | minus
  | fslash
  | open_curly
  | close_curly
  | if_
  | elif
  | else_
  | colon
  | for_
deriving DecidableEq

/-- Binary-operator precedence, mirroring `bin_prec` (tokenization.hpp:78-92):
`-`/`+` bind at 0, `/`/`*` bind at 1, everything else is not a binary operator. -/
def bin_prec : TokenType → Option Nat
  | TokenType.minus | TokenType.plus => some 0
  | TokenType.fslash | TokenType.star => some 1
  | _ => none

/-- One token, mirroring `struct Token`: a kind, the 1-based line on which the
token starts, and an optional payload (present for identifiers and integer
literals). -/
structure Token where
  type : TokenType
  line : Nat
  value : Option String := none
deriving DecidableEq

/-! ## Character classification

The C++ code calls `std::isalpha` / `std::isdigit` / `std::isalnum` /
`std::isspace` in the default C locale on ASCII input (the spec assumes
ASCII), which these predicates reproduce. -/

def isAlpha (c : Char) : Bool :=
  (decide ('a' ≤ c) && decide (c ≤ 'z')) || (decide ('A' ≤ c) && decide (c ≤ 'Z'))

def isDigit (c : Char) : Bool :=
  decide ('0' ≤ c) && decide (c ≤ '9')

def isAlnum (c : Char) : Bool :=
  isAlpha c || isDigit c

/-- `std::isspace` in the C locale: space, `\t`, `\n`, `\v`, `\f`, `\r`. -/
def isSpace (c : Char) : Bool :=
  c == ' ' || c == '\t' || c == '\n' || c == Char.ofNat 11 || c == Char.ofNat 12 || c == '\r'

/-! ## The tokenizer (`Tokenizer::tokenize`, tokenization.hpp:107-236)

The main loop is embedded as a fuel-indexed recursion over the unread suffix
of the source: each loop iteration consumes at least one character, so fuel
`length + 1` always suffices (`none` signals fuel exhaustion and never arises
from sufficient fuel).  Errors (`std::cerr << "Invalid token"; exit(...)`)
are modelled as `Except.error`, which discards the whole pass exactly as
`exit` does. -/

/-- Lexical failure modes: `invalid` for the unrecognized-character branch,
`oob` for an out-of-bounds `m_src.at` access (used by the index-level model
below). -/
inductive LexErr where
  | invalid
  | oob
deriving DecidableEq

/-- The keyword-vs-identifier classification of a completed buffer
(tokenization.hpp:118-145): exact, case-sensitive comparison against the six
reserved spellings, identifier with payload otherwise. -/
def keywordOrIdent (buf : String) (line_count : Nat) : Token :=
  if buf = "exit" then { type := TokenType.exit, line := line_count }
  else if buf = "let" then { type := TokenType.let_, line := line_count }
  else if buf = "if" then { type := TokenType.if_, line := line_count }
  else if buf = "elif" then { type := TokenType.elif, line := line_count }
  else if buf = "else" then { type := TokenType.else_, line := line_count }
  else if buf = "for" then { type := TokenType.for_, line := line_count }
  else { type := TokenType.ident, line := line_count, value := some buf }

/-- `while (peek().has_value() && p(peek().value())) buf.push_back(consume());`
returns the extended buffer and the unread remainder. -/
def scanWhile (p : Char → Bool) (acc : List Char) : List Char → List Char × List Char
  | [] => (acc, [])
  | c :: rest => if p c then scanWhile p (acc ++ [c]) rest else (acc, c :: rest)

/-- `while (peek().has_value() && p(peek().value())) consume();` -/
def skipWhile (p : Char → Bool) : List Char → List Char
  | [] => []
  | c :: rest => if p c then skipWhile p rest else c :: rest

/-- The block-comment skip loop (tokenization.hpp:165-176): discard characters
until `*` followed by `/` is next (then consume both, via the two guarded
`consume()` calls) or the input ends. -/
def skipBlock : List Char → List Char
  | [] => []
  | c :: rest => if c = '*' ∧ rest.head? = some '/' then rest.tail else skipBlock rest

/-- Whether a `*` immediately followed by `/` occurs anywhere in the list
(i.e. whether the block-comment skip loop finds a terminator). -/
def hasClose : List Char → Bool
  | [] => false
  | c :: rest => if c = '*' ∧ rest.head? = some '/' then true else hasClose rest

/-- `tokens.push_back(t)` threaded through the result of the rest of the scan. -/
def pushTok (t : Token) : Option (Except LexErr (List Token)) → Option (Except LexErr (List Token))
  | some (Except.ok ts) => some (Except.ok (t :: ts))
  | r => r

/-- The category the main loop's `if`/`else if` chain (tokenization.hpp:
112-232) assigns to the character under the cursor, given also the one-ahead
character `next = peek(1)`; the conditions are tested in exactly the order of
the C++ chain. -/
inductive Dispatch where
  | word
  | number
  | lineComment
  | blockComment
  | punct (t : TokenType)
  | newline
  | space
  | bad
deriving DecidableEq

def classify (c : Char) (next : Option Char) : Dispatch :=
  if isAlpha c then Dispatch.word
  else if isDigit c then Dispatch.number
  else if c = '/' ∧ next = some '/' then Dispatch.lineComment
  else if c = '/' ∧ next = some '*' then Dispatch.blockComment
  else if c = '(' then Dispatch.punct TokenType.open_paren
  else if c = ')' then Dispatch.punct TokenType.close_paren
  else if c = ';' then Dispatch.punct TokenType.semi
  else if c = '=' then Dispatch.punct TokenType.eq
  else if c = '+' then Dispatch.punct TokenType.plus
  else if c = '*' then Dispatch.punct TokenType.star
  else if c = '-' then Dispatch.punct TokenType.minus
  else if c = '/' then Dispatch.punct TokenType.fslash
  else if c = '{' then Dispatch.punct TokenType.open_curly
  else if c = '}' then Dispatch.punct TokenType.close_curly
  else if c = ':' then Dispatch.punct TokenType.colon
  else if c = '\n' then Dispatch.newline
  else if isSpace c then Dispatch.space
  else Dispatch.bad

/-- The main scanning loop of `Tokenizer::tokenize`: dispatch on the
character under the cursor exactly as the C++ `if`/`else if` chain does
(via `classify`), perform the branch's action, continue.  The first argument
is fuel; `none` means the fuel ran out. -/
def tokenizeF : Nat → List Char → Nat → Option (Except LexErr (List Token))
  | 0, _, _ => none
  | _ + 1, [], _ => some (Except.ok [])
  | fuel + 1, c :: rest, line_count =>
    match classify c rest.head? with
    | Dispatch.word =>
      pushTok (keywordOrIdent (String.mk (scanWhile isAlnum [c] rest).1) line_count)
        (tokenizeF fuel (scanWhile isAlnum [c] rest).2 line_count)
    | Dispatch.number =>
      pushTok { type := TokenType.int_lit, line := line_count,
                value := some (String.mk (scanWhile isDigit [c] rest).1) }
        (tokenizeF fuel (scanWhile isDigit [c] rest).2 line_count)
    | Dispatch.lineComment =>
      tokenizeF fuel (skipWhile (fun d => d != '\n') rest.tail) line_count
    | Dispatch.blockComment =>
      tokenizeF fuel (skipBlock rest.tail) line_count
    | Dispatch.punct t =>
      pushTok { type := t, line := line_count } (tokenizeF fuel rest line_count)
    | Dispatch.newline =>
      tokenizeF fuel rest (line_count + 1)
    | Dispatch.space =>
      tokenizeF fuel rest line_count
    | Dispatch.bad =>
      some (Except.error LexErr.invalid)

/-- `Tokenizer::tokenize` on a whole source string: start at line 1 with
always-sufficient fuel. -/
def tokenize (src : String) : Option (Except LexErr (List Token)) :=
  tokenizeF (src.data.length + 1) src.data 1

/-! ## Token-stream invariants (for C10) -/

/-- A token's payload discipline: the payload is present exactly for
identifiers and integer literals, and then it is non-empty. -/
def payloadOK (t : Token) : Prop :=
  (t.value.isSome ↔ (t.type = TokenType.ident ∨ t.type = TokenType.int_lit)) ∧
  ∀ v, t.value = some v → v ≠ ""

/-- The invariants of a token stream produced while the scanner's line
counter is at `line_count`. -/
def StreamProps (line_count : Nat) (toks : List Token) : Prop :=
  (∀ t ∈ toks, line_count ≤ t.line) ∧
  List.Chain' (fun u v => u.line ≤ v.line) toks ∧
  (∀ t ∈ toks, payloadOK t)

/-! ## Index-level model of the scanner (for C9)

`Tokenizer::peek` / `Tokenizer::consume` work through a shared cursor
`m_index` into the unmodified source string; `m_src.at(...)` performs a
bounds check and fails on an out-of-bounds access.  This model keeps the
cursor explicit and models `consume`'s bounds check as a fallible operation
(`LexErr.oob`), so that the unreachability of the out-of-bounds branch is a
theorem rather than a modelling assumption. -/

/-- `Tokenizer::peek(offset)` (tokenization.hpp:239-246): the character at
`m_index + offset`, or none when past the end. -/
def peekAt (src : List Char) (i off : Nat) : Option Char :=
  src.get? (i + off)

/-- `Tokenizer::consume()` (tokenization.hpp:248-251): `m_src.at(m_index++)`;
`at` throws when the index is out of bounds. -/
def consumeAt (src : List Char) (i : Nat) : Except LexErr (Char × Nat) :=
  match src.get? i with
  | some c => Except.ok (c, i + 1)
  | none => Except.error LexErr.oob

/-- The `while (peek() && p(peek())) buf.push_back(consume());` loops at the
cursor level (fuel-indexed). -/
def scanWhileIdx (p : Char → Bool) :
    Nat → List Char → Nat → List Char → Option (Except LexErr (List Char × Nat))
  | 0, _, _, _ => none
  | fuel + 1, src, i, acc =>
    match peekAt src i 0 with
    | none => some (Except.ok (acc, i))
    | some c =>
      if p c then
        match consumeAt src i with
        | Except.ok (d, j) => scanWhileIdx p fuel src j (acc ++ [d])
        | Except.error e => some (Except.error e)
      else some (Except.ok (acc, i))

/-- The `while (peek() && p(peek())) consume();` loop at the cursor level. -/
def skipWhileIdx (p : Char → Bool) : Nat → List Char → Nat → Option (Except LexErr Nat)
  | 0, _, _ => none
  | fuel + 1, src, i =>
    match peekAt src i 0 with
    | none => some (Except.ok i)
    | some c =>
      if p c then
        match consumeAt src i with
        | Except.ok (_, j) => skipWhileIdx p fuel src j
        | Except.error e => some (Except.error e)
      else some (Except.ok i)

/-- The block-comment skip loop (tokenization.hpp:165-170) at the cursor
level: stop before a `*`-then-`/` pair or at end of input. -/
def skipBlockIdx : Nat → List Char → Nat → Option (Except LexErr Nat)
  | 0, _, _ => none
  | fuel + 1, src, i =>
    match peekAt src i 0 with
    | none => some (Except.ok i)
    | some c =>
      if c = '*' ∧ peekAt src i 1 = some '/' then some (Except.ok i)
      else
        match consumeAt src i with
        | Except.ok (_, j) => skipBlockIdx fuel src j
        | Except.error e => some (Except.error e)

/-- `if (peek().has_value()) consume();` (tokenization.hpp:171-176). -/
def maybeConsumeIdx (src : List Char) (i : Nat) : Except LexErr Nat :=
  match peekAt src i 0 with
  | some _ =>
    match consumeAt src i with
    | Except.ok (_, j) => Except.ok j
    | Except.error e => Except.error e
  | none => Except.ok i

def pushTokIdx (t : Token) :
    Option (Except LexErr (List Token × Nat)) → Option (Except LexErr (List Token × Nat))
  | some (Except.ok (ts, fin)) => some (Except.ok (t :: ts, fin))
  | r => r

/-- The main scanning loop at the cursor level: identical dispatch and
actions as `tokenizeF`, but with the cursor explicit and every `consume`
bounds-checked.  On normal exit it also returns the final cursor. -/
def tokenizeIdx : Nat → List Char → Nat → Nat → Option (Except LexErr (List Token × Nat))
  | 0, _, _, _ => none
  | fuel + 1, src, i, line_count =>
    match peekAt src i 0 with
    | none => some (Except.ok ([], i))
    | some c =>
      match classify c (peekAt src i 1) with
      | Dispatch.word =>
        match consumeAt src i with
        | Except.error e => some (Except.error e)
        | Except.ok (d, j) =>
          match scanWhileIdx isAlnum (src.length + 1) src j [d] with
          | none => none
          | some (Except.error e) => some (Except.error e)
          | some (Except.ok (buf, k)) =>
            pushTokIdx (keywordOrIdent (String.mk buf) line_count)
              (tokenizeIdx fuel src k line_count)
      | Dispatch.number =>
        match consumeAt src i with
        | Except.error e => some (Except.error e)
        | Except.ok (d, j) =>
          match scanWhileIdx isDigit (src.length + 1) src j [d] with
          | none => none
          | some (Except.error e) => some (Except.error e)
          | some (Except.ok (buf, k)) =>
            pushTokIdx { type := TokenType.int_lit, line := line_count,
                         value := some (String.mk buf) }
              (tokenizeIdx fuel src k line_count)
      | Dispatch.lineComment =>
        match consumeAt src i with
        | Except.error e => some (Except.error e)
        | Except.ok (_, j) =>
          match consumeAt src j with
          | Except.error e => some (Except.error e)
          | Except.ok (_, k) =>
            match skipWhileIdx (fun d => d != '\n') (src.length + 1) src k with
            | none => none
            | some (Except.error e) => some (Except.error e)
            | some (Except.ok m) => tokenizeIdx fuel src m line_count
      | Dispatch.blockComment =>
        match consumeAt src i with
        | Except.error e => some (Except.error e)
        | Except.ok (_, j) =>
          match consumeAt src j with
          | Except.error e => some (Except.error e)
          | Except.ok (_, k) =>
            match skipBlockIdx (src.length + 1) src k with
            | none => none
            | some (Except.error e) => some (Except.error e)
            | some (Except.ok m) =>
              match maybeConsumeIdx src m with
              | Except.error e => some (Except.error e)
              | Except.ok m1 =>
                match maybeConsumeIdx src m1 with
                | Except.error e => some (Except.error e)
                | Except.ok m2 => tokenizeIdx fuel src m2 line_count
      | Dispatch.punct t =>
        match consumeAt src i with
        | Except.error e => some (Except.error e)
        | Except.ok (_, j) =>
          pushTokIdx { type := t, line := line_count } (tokenizeIdx fuel src j line_count)
      | Dispatch.newline =>
        match consumeAt src i with
        | Except.error e => some (Except.error e)
        | Except.ok (_, j) => tokenizeIdx fuel src j (line_count + 1)
      | Dispatch.space =>
        match consumeAt src i with
        | Except.error e => some (Except.error e)
        | Except.ok (_, j) => tokenizeIdx fuel src j line_count
      | Dispatch.bad => some (Except.error LexErr.invalid)

/-! ## The arena allocator (`class ArenaAllocator`, arena.hpp)

Pointers are modelled as natural-number addresses with `0` playing the role
of `nullptr`; `m_buffer` is the base address returned by `new std::byte[...]`
and `m_offset` the bump cursor, exactly the three data members of the C++
class. -/

structure ArenaAllocator where
  m_size : Nat
  m_buffer : Nat
  m_offset : Nat
deriving DecidableEq

/-- The constructor (arena.hpp:9-14): capacity `max_num_bytes`, a fresh
buffer at some base address, cursor at the buffer's start. -/
def mkArena (base max_num_bytes : Nat) : ArenaAllocator :=
  { m_size := max_num_bytes, m_buffer := base, m_offset := base }

/-- The move constructor (arena.hpp:21-26): `std::exchange` each member with
the empty value, so the source is left with size 0 and null pointers. -/
def moveCtor (other : ArenaAllocator) : ArenaAllocator × ArenaAllocator :=
  ({ m_size := other.m_size, m_buffer := other.m_buffer, m_offset := other.m_offset },
   { m_size := 0, m_buffer := 0, m_offset := 0 })

/-- The move assignment operator (arena.hpp:29-35): `std::swap` each member,
so the two arenas exchange their entire states.  The first component is the
assigned-to arena, the second the moved-from arena. -/
def moveAssign (self other : ArenaAllocator) : ArenaAllocator × ArenaAllocator :=
  ({ m_size := other.m_size, m_buffer := other.m_buffer, m_offset := other.m_offset },
   { m_size := self.m_size, m_buffer := self.m_buffer, m_offset := self.m_offset })

/-- The destructor (arena.hpp:64-72): `delete[] m_buffer` removes the backing
buffer from the set of live allocations; deleting a null pointer is a no-op. -/
def destroyArena (live : List Nat) (ar : ArenaAllocator) : List Nat :=
  if ar.m_buffer = 0 then live else live.erase ar.m_buffer

/-- The smallest multiple of `align` that is at least `ptr`. -/
def alignUp (ptr align : Nat) : Nat :=
  (ptr + align - 1) / align * align

/-- `std::align(alignment, size, ptr, space)`: round `ptr` up to the
alignment; if the object then still fits in `space`, return the aligned
pointer and the reduced space, else fail. -/
def stdAlign (alignment size ptr space : Nat) : Option (Nat × Nat) :=
  if alignUp ptr alignment - ptr + size ≤ space then
    some (alignUp ptr alignment, space - (alignUp ptr alignment - ptr))
  else
    none

/-- `ArenaAllocator::alloc<T>` (arena.hpp:38-54) with `align = alignof(T)`
and `size = sizeof(T)`: compute the remaining bytes, align within them, fail
(`throw std::bad_alloc`) if `std::align` fails, otherwise bump the cursor
past the reserved region and hand out the aligned address. -/
def ArenaAllocator.alloc (ar : ArenaAllocator) (align size : Nat) : Option (Nat × ArenaAllocator) :=
  let remaining_num_bytes := ar.m_size - (ar.m_offset - ar.m_buffer)
  match stdAlign align size ar.m_offset remaining_num_bytes with
  | none => none
  | some (aligned_address, _) =>
    some (aligned_address, { ar with m_offset := aligned_address + size })

/-- `ArenaAllocator::emplace<T>` (arena.hpp:56-62) allocates via `alloc<T>`
and then constructs in place; its allocation behaviour is that of `alloc`. -/
def ArenaAllocator.emplace (ar : ArenaAllocator) (align size : Nat) : Option (Nat × ArenaAllocator) :=
  ar.alloc align size

/-- One allocation call as seen by a caller that catches `std::bad_alloc`:
on failure the exception is thrown before `m_offset` is written, so the
arena is unchanged. -/
def allocTry (ar : ArenaAllocator) (align size : Nat) : ArenaAllocator × Option Nat :=
  match ar.alloc align size with
  | none => (ar, none)
  | some (addr, ar') => (ar', some addr)

/-- A sequence of allocation calls, continuing (with unchanged state) past
failed ones. -/
def runAllocs : ArenaAllocator → List (Nat × Nat) → ArenaAllocator
  | ar, [] => ar
  | ar, r :: rs => runAllocs (allocTry ar r.1 r.2).1 rs

/-- A sequence of allocation requests `(align, size)` processed until the
first failure (an uncaught `std::bad_alloc` aborts the sequence); returns
the granted address ranges `(address, size)`. -/
def allocList : ArenaAllocator → List (Nat × Nat) → List (Nat × Nat)
  | _, [] => []
  | ar, r :: rs =>
    match ar.alloc r.1 r.2 with
    | none => []
    | some (addr, ar') => (addr, r.2) :: allocList ar' rs

/-- The cursor sits inside the buffer: the basic well-formedness invariant
every reachable arena state satisfies. -/
def ArenaInv (ar : ArenaAllocator) : Prop :=
  ar.m_buffer ≤ ar.m_offset ∧ ar.m_offset ≤ ar.m_buffer + ar.m_size

/-! ### Arithmetic facts about `alignUp` -/

theorem le_alignUp (ptr align : Nat) (h : 1 ≤ align) : ptr ≤ alignUp ptr align := by
  have h2 : ptr + align - 1 < (ptr + align - 1) / align * align + align :=
    Nat.lt_div_mul_add h
  unfold alignUp
  generalize (ptr + align - 1) / align * align = X at h2 ⊢
  omega

theorem alignUp_dvd (ptr align : Nat) : align ∣ alignUp ptr align :=
  Dvd.intro_left _ rfl

theorem alignUp_le (ptr align q : Nat) (ha : 1 ≤ align) (hdvd : align ∣ q) (hpq : ptr ≤ q) :
    alignUp ptr align ≤ q := by
  obtain ⟨m, hm⟩ := hdvd
  have h1 : (ptr + align - 1) / align ≤ m := by
    rw [Nat.div_le_iff_le_mul_add_pred ha]
    subst hm
    generalize align * m = X at hpq ⊢
    omega
  calc (ptr + align - 1) / align * align ≤ m * align := Nat.mul_le_mul_right align h1
    _ = align * m := Nat.mul_comm m align
    _ = q := hm.symm

/-! ### Characterizing a single `alloc` call -/

theorem alloc_eq_some (ar : ArenaAllocator) (align size : Nat) (ha : 1 ≤ align)
    (hinv : ArenaInv ar) (addr : Nat) (ar' : ArenaAllocator)
    (h : ar.alloc align size = some (addr, ar')) :
    addr = alignUp ar.m_offset align ∧ ar.m_offset ≤ addr ∧ align ∣ addr ∧
      addr + size ≤ ar.m_buffer + ar.m_size ∧
      ar' = { m_size := ar.m_size, m_buffer := ar.m_buffer, m_offset := addr + size } := by
  obtain ⟨h1, h2⟩ := hinv
  unfold ArenaAllocator.alloc stdAlign at h
  by_cases hc : alignUp ar.m_offset align - ar.m_offset + size ≤
      ar.m_size - (ar.m_offset - ar.m_buffer)
  · simp only [hc, if_pos] at h
    obtain ⟨rfl, rfl⟩ : alignUp ar.m_offset align = addr ∧
        ({ ar with m_offset := alignUp ar.m_offset align + size } : ArenaAllocator) = ar' := by
      constructor
      · exact congrArg Prod.fst (Option.some.inj h)
      · exact congrArg Prod.snd (Option.some.inj h)
    have hle := le_alignUp ar.m_offset align ha
    refine ⟨rfl, hle, alignUp_dvd _ _, ?_, rfl⟩
    generalize alignUp ar.m_offset align = A at hc hle ⊢
    omega
  · simp only [hc, if_neg, not_false_iff] at h
    exact absurd h (by simp)

theorem alloc_isSome_iff (ar : ArenaAllocator) (align size : Nat) (ha : 1 ≤ align)
    (hinv : ArenaInv ar) :
    (ar.alloc align size).isSome ↔
      ∃ q, ar.m_offset ≤ q ∧ align ∣ q ∧ q + size ≤ ar.m_buffer + ar.m_size := by
  obtain ⟨h1, h2⟩ := hinv
  unfold ArenaAllocator.alloc stdAlign
  by_cases hc : alignUp ar.m_offset align - ar.m_offset + size ≤
      ar.m_size - (ar.m_offset - ar.m_buffer)
  · simp only [hc, if_pos, Option.isSome_some, true_iff]
    refine ⟨alignUp ar.m_offset align, le_alignUp _ _ ha, alignUp_dvd _ _, ?_⟩
    have hle := le_alignUp ar.m_offset align ha
    generalize alignUp ar.m_offset align = A at hc hle ⊢
    omega
  · simp only [hc, if_neg, not_false_iff]
    apply iff_of_false (by decide)
    rintro ⟨q, hq1, hq2, hq3⟩
    apply hc
    have hle := le_alignUp ar.m_offset align ha
    have hup := alignUp_le ar.m_offset align q ha hq2 hq1
    generalize alignUp ar.m_offset align = A at hle hup ⊢
    omega

/-! ### Allocation sequences -/

theorem allocList_spec : ∀ (reqs : List (Nat × Nat)) (ar : ArenaAllocator),
    (∀ r ∈ reqs, 1 ≤ r.1) → ArenaInv ar →
    (∀ g ∈ allocList ar reqs,
        ar.m_offset ≤ g.1 ∧ ar.m_buffer ≤ g.1 ∧ g.1 + g.2 ≤ ar.m_buffer + ar.m_size) ∧
    List.Pairwise (fun g h => g.1 + g.2 ≤ h.1) (allocList ar reqs) := by
  intro reqs
  induction reqs with
  | nil => intro ar _ _; simp [allocList]
  | cons r rs ih =>
    intro ar hreq hinv
    have ha : 1 ≤ r.1 := hreq r (List.mem_cons_self r rs)
    cases h : ar.alloc r.1 r.2 with
    | none => simp [allocList, h]
    | some res =>
      obtain ⟨addr, ar'⟩ := res
      obtain ⟨-, hoff, -, hfit, har'⟩ := alloc_eq_some ar r.1 r.2 ha hinv addr ar' h
      subst har'
      have hinv' : ArenaInv (ArenaAllocator.mk ar.m_size ar.m_buffer (addr + r.2)) :=
        ⟨le_trans hinv.1 (le_trans hoff (Nat.le_add_right _ _)), hfit⟩
      have ihr := ih _ (fun x hx => hreq x (List.mem_cons_of_mem r hx)) hinv'
      constructor
      · intro g hg
        simp only [allocList, h] at hg
        rcases List.mem_cons.mp hg with rfl | hg'
        · exact ⟨hoff, le_trans hinv.1 hoff, hfit⟩
        · obtain ⟨h1, h2, h3⟩ := ihr.1 g hg'
          exact ⟨le_trans hoff (le_trans (Nat.le_add_right _ _) h1), h2, h3⟩
      · simp only [allocList, h]
        rw [List.pairwise_cons]
        exact ⟨fun g hg => (ihr.1 g hg).1, ihr.2⟩

theorem runAllocs_mono : ∀ (reqs : List (Nat × Nat)) (ar : ArenaAllocator),
    (∀ r ∈ reqs, 1 ≤ r.1) → ArenaInv ar →
    ar.m_offset ≤ (runAllocs ar reqs).m_offset ∧
    (runAllocs ar reqs).m_buffer = ar.m_buffer ∧
    (runAllocs ar reqs).m_size = ar.m_size ∧
    ArenaInv (runAllocs ar reqs) := by
  intro reqs
  induction reqs with
  | nil => intro ar _ hinv; exact ⟨le_refl _, rfl, rfl, hinv⟩
  | cons r rs ih =>
    intro ar hreq hinv
    have ha : 1 ≤ r.1 := hreq r (List.mem_cons_self r rs)
    cases h : ar.alloc r.1 r.2 with
    | none =>
      have htry : allocTry ar r.1 r.2 = (ar, none) := by simp [allocTry, h]
      simp only [runAllocs, htry]
      exact ih ar (fun x hx => hreq x (List.mem_cons_of_mem r hx)) hinv
    | some res =>
      obtain ⟨addr, ar'⟩ := res
      obtain ⟨-, hoff, -, hfit, har'⟩ := alloc_eq_some ar r.1 r.2 ha hinv addr ar' h
      have htry : allocTry ar r.1 r.2 = (ar', some addr) := by simp [allocTry, h]
      subst har'
      have hinv' : ArenaInv (ArenaAllocator.mk ar.m_size ar.m_buffer (addr + r.2)) :=
        ⟨le_trans hinv.1 (le_trans hoff (Nat.le_add_right _ _)), hfit⟩
      obtain ⟨m1, m2, m3, m4⟩ := ih _ (fun x hx => hreq x (List.mem_cons_of_mem r hx)) hinv'
      simp only [runAllocs, htry]
      exact ⟨le_trans (le_trans hoff (Nat.le_add_right _ _)) m1, m2, m3, m4⟩

/-! ## Claim theorems: arena -/

/-- C2, claim as stated is false: after a move **assignment** the moved-from
arena is not left with a null buffer and zero capacity.  Concretely, move-
assigning the arena at base 1 (capacity 16) into an arena that owns the
buffer at base 2 (capacity 8) leaves the moved-from arena holding buffer 2
with capacity 8, because `operator=` swaps the members. -/
theorem c2_move_assign_not_nulled :
    ¬((moveAssign (ArenaAllocator.mk 8 2 2) (ArenaAllocator.mk 16 1 1)).2.m_buffer = 0 ∧
      (moveAssign (ArenaAllocator.mk 8 2 2) (ArenaAllocator.mk 16 1 1)).2.m_size = 0) := by
  decide

/-- C2 (amended): move construction transfers buffer pointer, capacity and
cursor and leaves the source null/zero, so destroying the source afterwards
is a no-op; move assignment instead swaps the two arenas' whole states, so
the old owner takes over the destination's previous buffer, and destroying
it afterwards frees only that previous buffer and leaves the new owner's
buffer alive (no double free). -/
theorem c2_move_transfer : ∀ (a b : ArenaAllocator) (live : List Nat),
    (moveCtor a).1 = a ∧
    (moveCtor a).2 = ArenaAllocator.mk 0 0 0 ∧
    destroyArena live (moveCtor a).2 = live ∧
    (moveAssign b a).1 = a ∧
    (moveAssign b a).2 = b ∧
    (a.m_buffer ∈ live → a.m_buffer ≠ b.m_buffer →
      a.m_buffer ∈ destroyArena live (moveAssign b a).2) := by
  intro a b live
  refine ⟨rfl, rfl, rfl, rfl, rfl, fun hmem hne => ?_⟩
  show a.m_buffer ∈ destroyArena live (ArenaAllocator.mk b.m_size b.m_buffer b.m_offset)
  unfold destroyArena
  by_cases hb : b.m_buffer = 0
  · simpa [hb] using hmem
  · simp only [hb, if_neg]
    exact (List.mem_erase_of_ne hne).mpr hmem

theorem c2_move_transfer_witness :
    (ArenaAllocator.mk 16 1 1).m_buffer ∈ [1, 2] ∧
    (ArenaAllocator.mk 16 1 1).m_buffer ≠ (ArenaAllocator.mk 8 2 2).m_buffer ∧
    (ArenaAllocator.mk 16 1 1).m_buffer ∈
      destroyArena [1, 2] (moveAssign (ArenaAllocator.mk 8 2 2) (ArenaAllocator.mk 16 1 1)).2 :=
  ⟨by decide, by decide,
    (c2_move_transfer (ArenaAllocator.mk 16 1 1) (ArenaAllocator.mk 8 2 2) [1, 2]).2.2.2.2.2
      (by decide) (by decide)⟩

/-- C3: a typed allocation request succeeds exactly when some address at or
after the cursor is aligned and leaves `size` bytes before the buffer's end
(so the first request without such an address is exactly the one that fails
with `std::bad_alloc`, and none before it), and every address range granted
before the first failure lies inside the buffer and the granted ranges are
pairwise non-overlapping. -/
theorem c3_alloc_exhaustion :
    (∀ (ar : ArenaAllocator) (align size : Nat), 1 ≤ align → ArenaInv ar →
      ((ar.alloc align size).isSome ↔
        ∃ q, ar.m_offset ≤ q ∧ align ∣ q ∧ q + size ≤ ar.m_buffer + ar.m_size)) ∧
    (∀ (reqs : List (Nat × Nat)) (ar : ArenaAllocator),
      (∀ r ∈ reqs, 1 ≤ r.1) → ArenaInv ar →
      (∀ g ∈ allocList ar reqs, ar.m_buffer ≤ g.1 ∧ g.1 + g.2 ≤ ar.m_buffer + ar.m_size) ∧
      List.Pairwise (fun g h => g.1 + g.2 ≤ h.1) (allocList ar reqs)) :=
  ⟨fun ar align size ha hinv => alloc_isSome_iff ar align size ha hinv,
   fun reqs ar hreq hinv =>
    ⟨fun g hg => ((allocList_spec reqs ar hreq hinv).1 g hg).2,
     (allocList_spec reqs ar hreq hinv).2⟩⟩

theorem c3_alloc_exhaustion_witness :
    (((ArenaAllocator.mk 16 8 8).alloc 4 4).isSome ↔
      ∃ q, (ArenaAllocator.mk 16 8 8).m_offset ≤ q ∧ 4 ∣ q ∧
        q + 4 ≤ (ArenaAllocator.mk 16 8 8).m_buffer + (ArenaAllocator.mk 16 8 8).m_size) ∧
    (∀ g ∈ allocList (ArenaAllocator.mk 16 8 8) [(4, 4), (8, 8)],
        (ArenaAllocator.mk 16 8 8).m_buffer ≤ g.1 ∧
        g.1 + g.2 ≤ (ArenaAllocator.mk 16 8 8).m_buffer + (ArenaAllocator.mk 16 8 8).m_size) ∧
    List.Pairwise (fun g h => g.1 + g.2 ≤ h.1)
      (allocList (ArenaAllocator.mk 16 8 8) [(4, 4), (8, 8)]) :=
  ⟨c3_alloc_exhaustion.1 (ArenaAllocator.mk 16 8 8) 4 4 (by decide) ⟨by decide, by decide⟩,
   c3_alloc_exhaustion.2 [(4, 4), (8, 8)] (ArenaAllocator.mk 16 8 8)
     (by decide) ⟨by decide, by decide⟩⟩

/-- C4: the precedence query is a pure function of the token kind alone:
`plus` and `minus` have precedence 0, `star` and `fslash` have precedence 1,
and every other kind has no precedence. -/
theorem c4_bin_prec_spec :
    bin_prec TokenType.plus = some 0 ∧ bin_prec TokenType.minus = some 0 ∧
    bin_prec TokenType.star = some 1 ∧ bin_prec TokenType.fslash = some 1 ∧
    ∀ t : TokenType, bin_prec t =
      if t = TokenType.plus ∨ t = TokenType.minus then some 0
      else if t = TokenType.star ∨ t = TokenType.fslash then some 1
      else none := by
  refine ⟨rfl, rfl, rfl, rfl, fun t => ?_⟩
  cases t <;> rfl

/-- C8: over any sequence of `alloc`/`emplace` calls the cursor never moves
backward, after every successful call the cursor stays at or before the
buffer's end, and a failed call leaves the arena unchanged. -/
theorem c8_cursor_monotone :
    ∀ (ar : ArenaAllocator) (align size : Nat), 1 ≤ align → ArenaInv ar →
      ar.m_offset ≤ (allocTry ar align size).1.m_offset ∧
      (allocTry ar align size).1.m_offset ≤ ar.m_buffer + ar.m_size ∧
      (ar.alloc align size = none → allocTry ar align size = (ar, none)) ∧
      ar.emplace align size = ar.alloc align size ∧
      (∀ reqs : List (Nat × Nat), (∀ r ∈ reqs, 1 ≤ r.1) →
        ar.m_offset ≤ (runAllocs ar reqs).m_offset ∧
        (runAllocs ar reqs).m_offset ≤ ar.m_buffer + ar.m_size) := by
  intro ar align size ha hinv
  have hstep : ar.m_offset ≤ (allocTry ar align size).1.m_offset ∧
      (allocTry ar align size).1.m_offset ≤ ar.m_buffer + ar.m_size := by
    cases h : ar.alloc align size with
    | none => simp only [allocTry, h]; exact ⟨le_refl _, hinv.2⟩
    | some res =>
      obtain ⟨addr, ar'⟩ := res
      obtain ⟨-, hoff, -, hfit, har'⟩ := alloc_eq_some ar align size ha hinv addr ar' h
      subst har'
      simp only [allocTry, h]
      exact ⟨le_trans hoff (Nat.le_add_right _ _), hfit⟩
  refine ⟨hstep.1, hstep.2, fun h => by simp [allocTry, h], rfl, fun reqs hreq => ?_⟩
  obtain ⟨m1, m2, m3, m4⟩ := runAllocs_mono reqs ar hreq hinv
  exact ⟨m1, by rw [← m2, ← m3]; exact m4.2⟩

theorem c8_cursor_monotone_witness :
    (ArenaAllocator.mk 16 8 8).m_offset ≤ ((allocTry (ArenaAllocator.mk 16 8 8) 4 4).1).m_offset ∧
    ((allocTry (ArenaAllocator.mk 16 8 8) 4 4).1).m_offset ≤
      (ArenaAllocator.mk 16 8 8).m_buffer + (ArenaAllocator.mk 16 8 8).m_size :=
  ⟨(c8_cursor_monotone (ArenaAllocator.mk 16 8 8) 4 4 (by decide) ⟨by decide, by decide⟩).1,
   (c8_cursor_monotone (ArenaAllocator.mk 16 8 8) 4 4 (by decide) ⟨by decide, by decide⟩).2.1⟩

/-! ## Helper lemmas about the scanning loops -/

/-- The alphanumeric/digit accumulation loop collects exactly the maximal
prefix of characters satisfying `p` and leaves exactly the rest unread. -/
theorem scanWhile_eq : ∀ (p : Char → Bool) (acc l : List Char),
    scanWhile p acc l = (acc ++ l.takeWhile p, l.dropWhile p) := by
  intro p acc l
  induction l generalizing acc with
  | nil => simp [scanWhile]
  | cons c rest ih =>
    by_cases hc : p c
    · simp [scanWhile, List.takeWhile_cons, List.dropWhile_cons, hc, ih]
    · simp [scanWhile, List.takeWhile_cons, List.dropWhile_cons, hc]

/-- If no `*`-then-`/` pair occurs, the block-comment skip loop consumes the
whole remaining input. -/
theorem skipBlock_eq_nil : ∀ (l : List Char), hasClose l = false → skipBlock l = [] := by
  intro l
  induction l with
  | nil => intro h; rfl
  | cons c rest ih =>
    intro h
    by_cases hc : c = '*' ∧ rest.head? = some '/'
    · exfalso; simp [hasClose, hc] at h
    · simp only [hasClose, hc, if_neg, not_false_iff] at h
      simp only [skipBlock, hc, if_neg, not_false_iff]
      exact ih h

/-! ## Claim theorems: tokenizer -/

/-- C1: the claim (and the documented meaning of `Token::line`) says newlines
consumed while skipping a block comment advance the line counter, and that
`"/* a\nb */ exit"` yields the `exit` token on line 2.  The code's block-
comment loop (tokenization.hpp:165-176) consumes `\n` without touching
`line_count`, so the token actually carries line 1: the first evaluation
exhibits the failing input.  The second evaluation shows the contrast: a
line comment leaves the `\n` for the main loop, which does count it, so the
analogous input with a line comment yields `exit` on line 2. -/
theorem c1_block_comment_line_bug :
    tokenize "/* a\nb */ exit" =
      some (Except.ok [{ type := TokenType.exit, line := 1 }]) ∧
    tokenize "// a\nexit" =
      some (Except.ok [{ type := TokenType.exit, line := 2 }]) :=
  ⟨rfl, rfl⟩

/-- C5, claim as stated is false: an input *containing* an unrecognized
character need not make tokenization fail, because characters inside
comments are discarded without being classified.  `"// @"` contains `'@'`,
which matches none of the recognized categories, yet tokenization succeeds
with an empty token list. -/
theorem c5_comment_swallows_unrecognized :
    ('@' ∈ "// @".data ∧ isAlpha '@' = false ∧ isDigit '@' = false ∧
      isSpace '@' = false ∧
      '@' ∉ (['(', ')', ';', '=', '+', '*', '-', '/', '{', '}', ':'] : List Char)) ∧
    tokenize "// @" = some (Except.ok []) :=
  ⟨by decide, rfl⟩

/-- C5 (amended): whenever the scanner's dispatch reaches a character that
matches none of the recognized categories (so not inside a comment),
tokenization stops at once with the fatal lexical error, producing no token
sequence at all. -/
theorem c5_unrecognized_dispatch_error :
    ∀ (c : Char) (cs : List Char) (line_count fuel : Nat),
      isAlpha c = false → isDigit c = false → isSpace c = false →
      c ∉ (['(', ')', ';', '=', '+', '*', '-', '/', '{', '}', ':'] : List Char) →
      tokenizeF (fuel + 1) (c :: cs) line_count = some (Except.error LexErr.invalid) := by
  intro c cs line_count fuel h1 h2 h3 hmem
  have hne : ∀ d ∈ (['(', ')', ';', '=', '+', '*', '-', '/', '{', '}', ':'] : List Char),
      ¬(c = d) := fun d hd he => hmem (he ▸ hd)
  have e1 := hne '(' (by decide)
  have e2 := hne ')' (by decide)
  have e3 := hne ';' (by decide)
  have e4 := hne '=' (by decide)
  have e5 := hne '+' (by decide)
  have e6 := hne '*' (by decide)
  have e7 := hne '-' (by decide)
  have e8 := hne '/' (by decide)
  have e9 := hne '{' (by decide)
  have e10 := hne '}' (by decide)
  have e11 := hne ':' (by decide)
  have e12 : ¬(c = '\n') := by
    intro he
    subst he
    exact absurd h3 (by decide)
  simp [tokenizeF, classify, h1, h2, h3, e1, e2, e3, e4, e5, e6, e7, e8, e9, e10, e11, e12]

theorem c5_unrecognized_dispatch_error_witness :
    (isAlpha '@' = false ∧ isDigit '@' = false ∧ isSpace '@' = false ∧
      '@' ∉ (['(', ')', ';', '=', '+', '*', '-', '/', '{', '}', ':'] : List Char)) ∧
    tokenizeF 1 ['@'] 1 = some (Except.error LexErr.invalid) :=
  ⟨⟨by decide, by decide, by decide, by decide⟩,
   c5_unrecognized_dispatch_error '@' [] 1 0 (by decide) (by decide) (by decide) (by decide)⟩

/-- C6: an alphabetic-start run is accumulated maximally (the loop collects
exactly the longest alphanumeric prefix), the buffer is compared exactly and
case-sensitively against the six reserved spellings (any other buffer gives
an identifier carrying the buffer), and in particular `"iffy"` yields the
single token `ident("iffy")`. -/
theorem c6_keyword_maximal_munch :
    tokenize "iffy" =
      some (Except.ok [{ type := TokenType.ident, line := 1, value := some "iffy" }]) ∧
    (∀ (p : Char → Bool) (acc l : List Char),
        scanWhile p acc l = (acc ++ l.takeWhile p, l.dropWhile p)) ∧
    (∀ line_count : Nat,
        keywordOrIdent "exit" line_count = { type := TokenType.exit, line := line_count } ∧
        keywordOrIdent "let" line_count = { type := TokenType.let_, line := line_count } ∧
        keywordOrIdent "if" line_count = { type := TokenType.if_, line := line_count } ∧
        keywordOrIdent "elif" line_count = { type := TokenType.elif, line := line_count } ∧
        keywordOrIdent "else" line_count = { type := TokenType.else_, line := line_count } ∧
        keywordOrIdent "for" line_count = { type := TokenType.for_, line := line_count }) ∧
    (∀ (w : String) (line_count : Nat),
        w ∉ (["exit", "let", "if", "elif", "else", "for"] : List String) →
        keywordOrIdent w line_count =
          { type := TokenType.ident, line := line_count, value := some w }) := by
  refine ⟨rfl, scanWhile_eq, fun line_count => ⟨rfl, rfl, rfl, rfl, rfl, rfl⟩, ?_⟩
  intro w line_count hw
  have hne : ∀ d ∈ (["exit", "let", "if", "elif", "else", "for"] : List String),
      ¬(w = d) := fun d hd he => hw (he ▸ hd)
  have e1 := hne "exit" (by decide)
  have e2 := hne "let" (by decide)
  have e3 := hne "if" (by decide)
  have e4 := hne "elif" (by decide)
  have e5 := hne "else" (by decide)
  have e6 := hne "for" (by decide)
  simp [keywordOrIdent, e1, e2, e3, e4, e5, e6]

theorem c6_keyword_maximal_munch_witness :
    ("iffy" ∉ (["exit", "let", "if", "elif", "else", "for"] : List String)) ∧
    keywordOrIdent "iffy" 1 = { type := TokenType.ident, line := 1, value := some "iffy" } :=
  ⟨by decide, c6_keyword_maximal_munch.2.2.2 "iffy" 1 (by decide)⟩

/-- C7: when the scanner reaches a block-comment opener that is never
followed by a closing `*`-then-`/` sequence, the skip loop consumes the rest
of the input, no error is raised, and no further token is produced — so the
result is the token sequence accumulated before the opener. -/
theorem c7_unterminated_block_comment :
    ∀ (rest : List Char) (line_count fuel : Nat), hasClose rest = false →
      tokenizeF (fuel + 2) ('/' :: '*' :: rest) line_count = some (Except.ok []) := by
  intro rest line_count fuel h
  have step : tokenizeF (fuel + 2) ('/' :: '*' :: rest) line_count =
      tokenizeF (fuel + 1) (skipBlock rest) line_count := rfl
  rw [step, skipBlock_eq_nil rest h]
  rfl

theorem c7_unterminated_block_comment_witness :
    hasClose [' ', 'a'] = false ∧
    tokenizeF 2 ['/', '*', ' ', 'a'] 1 = some (Except.ok []) :=
  ⟨by decide, c7_unterminated_block_comment [' ', 'a'] 1 0 (by decide)⟩

theorem streamProps_nil (line_count : Nat) : StreamProps line_count [] :=
  ⟨fun t ht => absurd ht (List.not_mem_nil t), List.chain'_nil, fun t ht => absurd ht (List.not_mem_nil t)⟩

theorem streamProps_cons (line_count : Nat) (tk : Token) (toks : List Token)
    (h1 : tk.line = line_count) (h2 : payloadOK tk) (h3 : StreamProps line_count toks) :
    StreamProps line_count (tk :: toks) := by
  obtain ⟨p1, p2, p3⟩ := h3
  refine ⟨?_, ?_, ?_⟩
  · intro t ht
    rcases List.mem_cons.mp ht with rfl | ht'
    · rw [h1]
    · exact p1 t ht'
  · rw [List.chain'_cons']
    refine ⟨fun y hy => ?_, p2⟩
    rw [h1]
    exact p1 y (List.mem_of_mem_head? hy)
  · intro t ht
    rcases List.mem_cons.mp ht with rfl | ht'
    · exact h2
    · exact p3 t ht'

theorem streamProps_mono (line_count line_count' : Nat) (toks : List Token)
    (h : line_count ≤ line_count') (hp : StreamProps line_count' toks) :
    StreamProps line_count toks :=
  ⟨fun t ht => le_trans h (hp.1 t ht), hp.2.1, hp.2.2⟩

theorem pushTok_eq_ok (t : Token) (r : Option (Except LexErr (List Token))) (ts : List Token) :
    pushTok t r = some (Except.ok ts) ↔ ∃ ts0, r = some (Except.ok ts0) ∧ ts = t :: ts0 := by
  cases r with
  | none => simp [pushTok]
  | some e =>
    cases e with
    | ok ts0 =>
      simp only [pushTok, Option.some.injEq, Except.ok.injEq]
      constructor
      · intro he; exact ⟨ts0, rfl, he.symm⟩
      · rintro ⟨ts1, rfl, rfl⟩
        rfl
    | error err => simp [pushTok]

theorem keywordOrIdent_line (w : String) (line_count : Nat) :
    (keywordOrIdent w line_count).line = line_count := by
  unfold keywordOrIdent
  repeat' split
  all_goals rfl

theorem keywordOrIdent_payloadOK (w : String) (line_count : Nat) (hw : w ≠ "") :
    payloadOK (keywordOrIdent w line_count) := by
  unfold keywordOrIdent payloadOK
  repeat' split
  all_goals simp_all

theorem int_lit_payloadOK (w : String) (hw : w ≠ "") (line_count : Nat) :
    payloadOK { type := TokenType.int_lit, line := line_count, value := some w } := by
  unfold payloadOK
  constructor
  · simp
  · intro v hv
    obtain rfl : w = v := by injection hv
    exact hw

theorem punct_payloadOK (T : TokenType) (line_count : Nat)
    (hT1 : T ≠ TokenType.ident) (hT2 : T ≠ TokenType.int_lit) :
    payloadOK { type := T, line := line_count } := by
  unfold payloadOK
  constructor
  · simp [hT1, hT2]
  · intro v hv
    exact absurd hv (by simp)

theorem scanWhile_buf_ne_empty (p : Char → Bool) (c : Char) (rest : List Char) :
    String.mk ((scanWhile p [c] rest).1) ≠ "" := by
  rw [scanWhile_eq]
  intro hcontra
  have hdata := congrArg String.data hcontra
  simp at hdata

theorem classify_punct (c : Char) (next : Option Char) (t : TokenType)
    (h : classify c next = Dispatch.punct t) :
    t ≠ TokenType.ident ∧ t ≠ TokenType.int_lit := by
  unfold classify at h
  by_cases h1 : isAlpha c = true
  · rw [if_pos h1] at h
    simp at h
  rw [if_neg h1] at h
  by_cases h2 : isDigit c = true
  · rw [if_pos h2] at h
    simp at h
  rw [if_neg h2] at h
  by_cases h3 : c = '/' ∧ next = some '/'
  · rw [if_pos h3] at h
    simp at h
  rw [if_neg h3] at h
  by_cases h4 : c = '/' ∧ next = some '*'
  · rw [if_pos h4] at h
    simp at h
  rw [if_neg h4] at h
  by_cases h5 : c = '('
  · rw [if_pos h5] at h
    injection h with h2
    subst h2
    exact ⟨by decide, by decide⟩
  rw [if_neg h5] at h
  by_cases h6 : c = ')'
  · rw [if_pos h6] at h
    injection h with h2
    subst h2
    exact ⟨by decide, by decide⟩
  rw [if_neg h6] at h
  by_cases h7 : c = ';'
  · rw [if_pos h7] at h
    injection h with h2
    subst h2
    exact ⟨by decide, by decide⟩
  rw [if_neg h7] at h
  by_cases h8 : c = '='
  · rw [if_pos h8] at h
    injection h with h2
    subst h2
    exact ⟨by decide, by decide⟩
  rw [if_neg h8] at h
  by_cases h9 : c = '+'
  · rw [if_pos h9] at h
    injection h with h2
    subst h2
    exact ⟨by decide, by decide⟩
  rw [if_neg h9] at h
  by_cases h10 : c = '*'
  · rw [if_pos h10] at h
    injection h with h2
    subst h2
    exact ⟨by decide, by decide⟩
  rw [if_neg h10] at h
  by_cases h11 : c = '-'
  · rw [if_pos h11] at h
    injection h with h2
    subst h2
    exact ⟨by decide, by decide⟩
  rw [if_neg h11] at h
  by_cases h12 : c = '/'
  · rw [if_pos h12] at h
    injection h with h2
    subst h2
    exact ⟨by decide, by decide⟩
  rw [if_neg h12] at h
  by_cases h13 : c = '{'
  · rw [if_pos h13] at h
    injection h with h2
    subst h2
    exact ⟨by decide, by decide⟩
  rw [if_neg h13] at h
  by_cases h14 : c = '}'
  · rw [if_pos h14] at h
    injection h with h2
    subst h2
    exact ⟨by decide, by decide⟩
  rw [if_neg h14] at h
  by_cases h15 : c = ':'
  · rw [if_pos h15] at h
    injection h with h2
    subst h2
    exact ⟨by decide, by decide⟩
  rw [if_neg h15] at h
  by_cases h16 : c = '\n'
  · rw [if_pos h16] at h
    simp at h
  rw [if_neg h16] at h
  by_cases h17 : isSpace c = true
  · rw [if_pos h17] at h
    simp at h
  rw [if_neg h17] at h
  simp at h

theorem streamProps_pushTok (fuel : Nat) (l2 : List Char) (line_count : Nat) (tk : Token)
    (toks : List Token)
    (IH : ∀ (l : List Char) (line : Nat) (toks : List Token), 1 ≤ line →
      tokenizeF fuel l line = some (Except.ok toks) → StreamProps line toks)
    (hlc : 1 ≤ line_count) (h1 : tk.line = line_count) (h2 : payloadOK tk)
    (h : pushTok tk (tokenizeF fuel l2 line_count) = some (Except.ok toks)) :
    StreamProps line_count toks := by
  obtain ⟨ts0, hr, rfl⟩ := (pushTok_eq_ok tk _ toks).mp h
  exact streamProps_cons line_count tk ts0 h1 h2 (IH l2 line_count ts0 hlc hr)

theorem tokenizeF_ok_props : ∀ (fuel : Nat) (l : List Char) (line_count : Nat)
    (toks : List Token), 1 ≤ line_count →
    tokenizeF fuel l line_count = some (Except.ok toks) → StreamProps line_count toks := by
  intro fuel
  induction fuel with
  | zero =>
    intro l line_count toks _ h
    exact absurd h (by simp [tokenizeF])
  | succ fuel ih =>
    intro l line_count toks hlc h
    cases l with
    | nil =>
      simp only [tokenizeF, Option.some.injEq, Except.ok.injEq] at h
      subst h
      exact streamProps_nil line_count
    | cons c rest =>
      unfold tokenizeF at h
      cases hd : classify c rest.head? with
      | word =>
        rw [hd] at h
        exact streamProps_pushTok fuel _ line_count _ toks ih hlc
          (keywordOrIdent_line _ _)
          (keywordOrIdent_payloadOK _ _ (scanWhile_buf_ne_empty _ _ _)) h
      | number =>
        rw [hd] at h
        exact streamProps_pushTok fuel _ line_count _ toks ih hlc rfl
          (int_lit_payloadOK _ (scanWhile_buf_ne_empty _ _ _) line_count) h
      | lineComment =>
        rw [hd] at h
        exact ih _ line_count toks hlc h
      | blockComment =>
        rw [hd] at h
        exact ih _ line_count toks hlc h
      | punct t =>
        rw [hd] at h
        obtain ⟨ht1, ht2⟩ := classify_punct c rest.head? t hd
        exact streamProps_pushTok fuel _ line_count _ toks ih hlc rfl
          (punct_payloadOK t line_count ht1 ht2) h
      | newline =>
        rw [hd] at h
        exact streamProps_mono line_count (line_count + 1) toks (Nat.le_succ line_count)
          (ih _ (line_count + 1) toks (le_trans hlc (Nat.le_succ line_count)) h)
      | space =>
        rw [hd] at h
        exact ih _ line_count toks hlc h
      | bad =>
        rw [hd] at h
        simp at h

/-- C10: on every successful tokenization the token lines are non-decreasing
(so the first, if any, is at least 1 since every line is), and a token
carries a textual payload exactly when its kind is `ident` or `int_lit`, in
which case the payload is non-empty. -/
theorem c10_token_stream_invariants :
    ∀ (src : String) (toks : List Token),
      tokenize src = some (Except.ok toks) →
      List.Chain' (fun u v => u.line ≤ v.line) toks ∧
      ∀ t ∈ toks, 1 ≤ t.line ∧ payloadOK t := by
  intro src toks h
  obtain ⟨p1, p2, p3⟩ :=
    tokenizeF_ok_props (src.data.length + 1) src.data 1 toks (le_refl 1) h
  exact ⟨p2, fun t ht => ⟨p1 t ht, p3 t ht⟩⟩

theorem c10_token_stream_invariants_witness :
    List.Chain' (fun u v => u.line ≤ v.line)
      ([{ type := TokenType.ident, line := 1, value := some "x" },
        { type := TokenType.ident, line := 2, value := some "y" }] : List Token) ∧
    ∀ t ∈ ([{ type := TokenType.ident, line := 1, value := some "x" },
            { type := TokenType.ident, line := 2, value := some "y" }] : List Token),
      1 ≤ t.line ∧ payloadOK t :=
  c10_token_stream_invariants "x\ny"
    [{ type := TokenType.ident, line := 1, value := some "x" },
     { type := TokenType.ident, line := 2, value := some "y" }] rfl

/-! ### Facts extracted from `classify` -/

theorem classify_lineComment_next (c : Char) (next : Option Char)
    (h : classify c next = Dispatch.lineComment) : next = some '/' := by
  unfold classify at h
  by_cases h1 : isAlpha c = true
  · rw [if_pos h1] at h; simp at h
  rw [if_neg h1] at h
  by_cases h2 : isDigit c = true
  · rw [if_pos h2] at h; simp at h
  rw [if_neg h2] at h
  by_cases h3 : c = '/' ∧ next = some '/'
  · exact h3.2
  rw [if_neg h3] at h
  by_cases h4 : c = '/' ∧ next = some '*'
  · rw [if_pos h4] at h; simp at h
  rw [if_neg h4] at h
  by_cases h5 : c = '('
  · rw [if_pos h5] at h; simp at h
  rw [if_neg h5] at h
  by_cases h6 : c = ')'
  · rw [if_pos h6] at h; simp at h
  rw [if_neg h6] at h
  by_cases h7 : c = ';'
  · rw [if_pos h7] at h; simp at h
  rw [if_neg h7] at h
  by_cases h8 : c = '='
  · rw [if_pos h8] at h; simp at h
  rw [if_neg h8] at h
  by_cases h9 : c = '+'
  · rw [if_pos h9] at h; simp at h
  rw [if_neg h9] at h
  by_cases h10 : c = '*'
  · rw [if_pos h10] at h; simp at h
  rw [if_neg h10] at h
  by_cases h11 : c = '-'
  · rw [if_pos h11] at h; simp at h
  rw [if_neg h11] at h
  by_cases h12 : c = '/'
  · rw [if_pos h12] at h; simp at h
  rw [if_neg h12] at h
  by_cases h13 : c = '{'
  · rw [if_pos h13] at h; simp at h
  rw [if_neg h13] at h
  by_cases h14 : c = '}'
  · rw [if_pos h14] at h; simp at h
  rw [if_neg h14] at h
  by_cases h15 : c = ':'
  · rw [if_pos h15] at h; simp at h
  rw [if_neg h15] at h
  by_cases h16 : c = '\n'
  · rw [if_pos h16] at h; simp at h
  rw [if_neg h16] at h
  by_cases h17 : isSpace c = true
  · rw [if_pos h17] at h; simp at h
  rw [if_neg h17] at h
  simp at h

theorem classify_blockComment_next (c : Char) (next : Option Char)
    (h : classify c next = Dispatch.blockComment) : next = some '*' := by
  unfold classify at h
  by_cases h1 : isAlpha c = true
  · rw [if_pos h1] at h; simp at h
  rw [if_neg h1] at h
  by_cases h2 : isDigit c = true
  · rw [if_pos h2] at h; simp at h
  rw [if_neg h2] at h
  by_cases h3 : c = '/' ∧ next = some '/'
  · rw [if_pos h3] at h; simp at h
  rw [if_neg h3] at h
  by_cases h4 : c = '/' ∧ next = some '*'
  · exact h4.2
  rw [if_neg h4] at h
  by_cases h5 : c = '('
  · rw [if_pos h5] at h; simp at h
  rw [if_neg h5] at h
  by_cases h6 : c = ')'
  · rw [if_pos h6] at h; simp at h
  rw [if_neg h6] at h
  by_cases h7 : c = ';'
  · rw [if_pos h7] at h; simp at h
  rw [if_neg h7] at h
  by_cases h8 : c = '='
  · rw [if_pos h8] at h; simp at h
  rw [if_neg h8] at h
  by_cases h9 : c = '+'
  · rw [if_pos h9] at h; simp at h
  rw [if_neg h9] at h
  by_cases h10 : c = '*'
  · rw [if_pos h10] at h; simp at h
  rw [if_neg h10] at h
  by_cases h11 : c = '-'
  · rw [if_pos h11] at h; simp at h
  rw [if_neg h11] at h
  by_cases h12 : c = '/'
  · rw [if_pos h12] at h; simp at h
  rw [if_neg h12] at h
  by_cases h13 : c = '{'
  · rw [if_pos h13] at h; simp at h
  rw [if_neg h13] at h
  by_cases h14 : c = '}'
  · rw [if_pos h14] at h; simp at h
  rw [if_neg h14] at h
  by_cases h15 : c = ':'
  · rw [if_pos h15] at h; simp at h
  rw [if_neg h15] at h
  by_cases h16 : c = '\n'
  · rw [if_pos h16] at h; simp at h
  rw [if_neg h16] at h
  by_cases h17 : isSpace c = true
  · rw [if_pos h17] at h; simp at h
  rw [if_neg h17] at h
  simp at h

/-! ### Totality and bounds lemmas for the index-level model -/

theorem peekAt_zero_some {src : List Char} {i : Nat} {c : Char}
    (h : peekAt src i 0 = some c) : i < src.length :=
  (List.get?_eq_some.mp h).1

theorem peekAt_one_some {src : List Char} {i : Nat} {c : Char}
    (h : peekAt src i 1 = some c) : i + 1 < src.length :=
  (List.get?_eq_some.mp h).1

theorem consumeAt_ok_of_lt {src : List Char} {i : Nat} (h : i < src.length) :
    ∃ c, consumeAt src i = Except.ok (c, i + 1) := by
  cases hc : src.get? i with
  | none =>
    rw [List.get?_eq_none] at hc
    omega
  | some c => exact ⟨c, by simp only [consumeAt, hc]⟩

theorem scanWhileIdx_total (p : Char → Bool) :
    ∀ (fuel : Nat) (src : List Char) (i : Nat) (acc : List Char),
    src.length - i < fuel → i ≤ src.length →
    ∃ buf k, scanWhileIdx p fuel src i acc = some (Except.ok (buf, k)) ∧
      i ≤ k ∧ k ≤ src.length := by
  intro fuel
  induction fuel with
  | zero => intro src i acc h1 h2; omega
  | succ fuel ih =>
    intro src i acc h1 h2
    cases hp : peekAt src i 0 with
    | none => exact ⟨acc, i, by simp [scanWhileIdx, hp], le_refl i, h2⟩
    | some c =>
      have hlt : i < src.length := peekAt_zero_some hp
      by_cases hpc : p c = true
      · obtain ⟨d, hcons⟩ := consumeAt_ok_of_lt hlt
        obtain ⟨buf, k, hrec, hik, hk⟩ := ih src (i + 1) (acc ++ [d]) (by omega) (by omega)
        refine ⟨buf, k, ?_, by omega, hk⟩
        simp only [scanWhileIdx, hp, hpc, if_pos, hcons]
        exact hrec
      · refine ⟨acc, i, ?_, le_refl i, h2⟩
        simp [scanWhileIdx, hp, hpc]

theorem skipWhileIdx_total (p : Char → Bool) :
    ∀ (fuel : Nat) (src : List Char) (i : Nat),
    src.length - i < fuel → i ≤ src.length →
    ∃ k, skipWhileIdx p fuel src i = some (Except.ok k) ∧ i ≤ k ∧ k ≤ src.length := by
  intro fuel
  induction fuel with
  | zero => intro src i h1 h2; omega
  | succ fuel ih =>
    intro src i h1 h2
    cases hp : peekAt src i 0 with
    | none => exact ⟨i, by simp [skipWhileIdx, hp], le_refl i, h2⟩
    | some c =>
      have hlt : i < src.length := peekAt_zero_some hp
      by_cases hpc : p c = true
      · obtain ⟨d, hcons⟩ := consumeAt_ok_of_lt hlt
        obtain ⟨k, hrec, hik, hk⟩ := ih src (i + 1) (by omega) (by omega)
        refine ⟨k, ?_, by omega, hk⟩
        simp only [skipWhileIdx, hp, hpc, if_pos, hcons]
        exact hrec
      · refine ⟨i, ?_, le_refl i, h2⟩
        simp [skipWhileIdx, hp, hpc]

theorem skipBlockIdx_total :
    ∀ (fuel : Nat) (src : List Char) (i : Nat),
    src.length - i < fuel → i ≤ src.length →
    ∃ k, skipBlockIdx fuel src i = some (Except.ok k) ∧ i ≤ k ∧ k ≤ src.length := by
  intro fuel
  induction fuel with
  | zero => intro src i h1 h2; omega
  | succ fuel ih =>
    intro src i h1 h2
    cases hp : peekAt src i 0 with
    | none => exact ⟨i, by simp [skipBlockIdx, hp], le_refl i, h2⟩
    | some c =>
      have hlt : i < src.length := peekAt_zero_some hp
      by_cases hpc : c = '*' ∧ peekAt src i 1 = some '/'
      · refine ⟨i, ?_, le_refl i, h2⟩
        simp [skipBlockIdx, hp, hpc]
      · obtain ⟨d, hcons⟩ := consumeAt_ok_of_lt hlt
        obtain ⟨k, hrec, hik, hk⟩ := ih src (i + 1) (by omega) (by omega)
        refine ⟨k, ?_, by omega, hk⟩
        simp only [skipBlockIdx, hp, hpc, if_neg, not_false_iff, hcons]
        exact hrec

theorem maybeConsumeIdx_total (src : List Char) (i : Nat) (h2 : i ≤ src.length) :
    ∃ j, maybeConsumeIdx src i = Except.ok j ∧ i ≤ j ∧ j ≤ src.length := by
  cases hp : peekAt src i 0 with
  | none => exact ⟨i, by simp [maybeConsumeIdx, hp], le_refl i, h2⟩
  | some c =>
    have hlt : i < src.length := peekAt_zero_some hp
    obtain ⟨d, hcons⟩ := consumeAt_ok_of_lt hlt
    exact ⟨i + 1, by simp [maybeConsumeIdx, hp, hcons], by omega, by omega⟩

theorem tokenizeIdx_total : ∀ (fuel : Nat) (src : List Char) (i line_count : Nat),
    src.length - i < fuel → i ≤ src.length →
    ∃ r, tokenizeIdx fuel src i line_count = some r ∧
      (r = Except.error LexErr.invalid ∨ ∃ toks, r = Except.ok (toks, src.length)) := by
  intro fuel
  induction fuel with
  | zero => intro src i lc h1 h2; omega
  | succ fuel ih =>
    intro src i lc h1 h2
    cases hp : peekAt src i 0 with
    | none =>
      have hge : src.length ≤ i + 0 := List.get?_eq_none.mp hp
      have hi : i = src.length := by omega
      refine ⟨Except.ok ([], i), by simp [tokenizeIdx, hp], Or.inr ⟨[], by rw [hi]⟩⟩
    | some c =>
      have hlt : i < src.length := peekAt_zero_some hp
      obtain ⟨d, hcons⟩ := consumeAt_ok_of_lt hlt
      cases hd : classify c (peekAt src i 1) with
      | word =>
        obtain ⟨buf, k, hscan, hik, hk⟩ :=
          scanWhileIdx_total isAlnum (src.length + 1) src (i + 1) [d] (by omega) (by omega)
        obtain ⟨r, hrec, hr⟩ := ih src k lc (by omega) hk
        rcases hr with rfl | ⟨toks, rfl⟩
        · refine ⟨Except.error LexErr.invalid, ?_, Or.inl rfl⟩
          simp only [tokenizeIdx, hp, hd, hcons, hscan, hrec, pushTokIdx]
        · refine ⟨Except.ok (keywordOrIdent (String.mk buf) lc :: toks, src.length), ?_,
            Or.inr ⟨_, rfl⟩⟩
          simp only [tokenizeIdx, hp, hd, hcons, hscan, hrec, pushTokIdx]
      | number =>
        obtain ⟨buf, k, hscan, hik, hk⟩ :=
          scanWhileIdx_total isDigit (src.length + 1) src (i + 1) [d] (by omega) (by omega)
        obtain ⟨r, hrec, hr⟩ := ih src k lc (by omega) hk
        rcases hr with rfl | ⟨toks, rfl⟩
        · refine ⟨Except.error LexErr.invalid, ?_, Or.inl rfl⟩
          simp only [tokenizeIdx, hp, hd, hcons, hscan, hrec, pushTokIdx]
        · refine ⟨Except.ok ((⟨TokenType.int_lit, lc, some (String.mk buf)⟩ : Token) :: toks,
            src.length), ?_, Or.inr ⟨_, rfl⟩⟩
          simp only [tokenizeIdx, hp, hd, hcons, hscan, hrec, pushTokIdx]
      | lineComment =>
        have hnext := classify_lineComment_next c (peekAt src i 1) hd
        have hlt1 : i + 1 < src.length := peekAt_one_some hnext
        obtain ⟨d2, hcons2⟩ := consumeAt_ok_of_lt hlt1
        obtain ⟨m, hskip, him, hm⟩ :=
          skipWhileIdx_total (fun d => d != '\n') (src.length + 1) src (i + 1 + 1)
            (by omega) (by omega)
        obtain ⟨r, hrec, hr⟩ := ih src m lc (by omega) hm
        refine ⟨r, ?_, hr⟩
        simp only [tokenizeIdx, hp, hd, hcons, hcons2, hskip, hrec]
      | blockComment =>
        have hnext := classify_blockComment_next c (peekAt src i 1) hd
        have hlt1 : i + 1 < src.length := peekAt_one_some hnext
        obtain ⟨d2, hcons2⟩ := consumeAt_ok_of_lt hlt1
        obtain ⟨m, hskip, him, hm⟩ :=
          skipBlockIdx_total (src.length + 1) src (i + 1 + 1) (by omega) (by omega)
        obtain ⟨m1, hmc1, hmm1, hm1⟩ := maybeConsumeIdx_total src m hm
        obtain ⟨m2, hmc2, hmm2, hm2⟩ := maybeConsumeIdx_total src m1 hm1
        obtain ⟨r, hrec, hr⟩ := ih src m2 lc (by omega) hm2
        refine ⟨r, ?_, hr⟩
        simp only [tokenizeIdx, hp, hd, hcons, hcons2, hskip, hmc1, hmc2, hrec]
      | punct t =>
        obtain ⟨r, hrec, hr⟩ := ih src (i + 1) lc (by omega) (by omega)
        rcases hr with rfl | ⟨toks, rfl⟩
        · refine ⟨Except.error LexErr.invalid, ?_, Or.inl rfl⟩
          simp only [tokenizeIdx, hp, hd, hcons, hrec, pushTokIdx]
        · refine ⟨Except.ok ({ type := t, line := lc } :: toks, src.length), ?_,
            Or.inr ⟨_, rfl⟩⟩
          simp only [tokenizeIdx, hp, hd, hcons, hrec, pushTokIdx]
      | newline =>
        obtain ⟨r, hrec, hr⟩ := ih src (i + 1) (lc + 1) (by omega) (by omega)
        refine ⟨r, ?_, hr⟩
        simp only [tokenizeIdx, hp, hd, hcons, hrec]
      | space =>
        obtain ⟨r, hrec, hr⟩ := ih src (i + 1) lc (by omega) (by omega)
        refine ⟨r, ?_, hr⟩
        simp only [tokenizeIdx, hp, hd, hcons, hrec]
      | bad =>
        exact ⟨Except.error LexErr.invalid, by simp [tokenizeIdx, hp, hd], Or.inl rfl⟩

/-- C9: with the cursor model in which every `consume` performs the
bounds check of `m_src.at`, scanning a source from any in-bounds cursor
terminates (sufficient fuel never runs out), never takes the out-of-bounds
error branch (every consume is guarded by a peek), and on normal completion
the cursor has advanced exactly to the end of the input. -/
theorem c9_bounds_safety :
    ∀ (src : List Char) (i line_count : Nat), i ≤ src.length →
      tokenizeIdx (src.length - i + 1) src i line_count ≠ none ∧
      tokenizeIdx (src.length - i + 1) src i line_count ≠ some (Except.error LexErr.oob) ∧
      ∀ toks fin, tokenizeIdx (src.length - i + 1) src i line_count =
          some (Except.ok (toks, fin)) → fin = src.length := by
  intro src i line_count h2
  obtain ⟨r, hr, hcase⟩ :=
    tokenizeIdx_total (src.length - i + 1) src i line_count (by omega) h2
  refine ⟨by rw [hr]; simp, ?_, ?_⟩
  · rw [hr]
    rcases hcase with rfl | ⟨toks, rfl⟩
    · simp
    · simp
  · intro toks fin hok
    rw [hr] at hok
    rcases hcase with rfl | ⟨toks2, rfl⟩
    · exact absurd hok (by simp)
    · simp only [Option.some.injEq, Except.ok.injEq, Prod.mk.injEq] at hok
      exact hok.2.symm

theorem c9_bounds_safety_witness :
    tokenizeIdx ("let x".data.length - 0 + 1) "let x".data 0 1 ≠ none ∧
    tokenizeIdx ("let x".data.length - 0 + 1) "let x".data 0 1 ≠
      some (Except.error LexErr.oob) ∧
    ∀ toks fin, tokenizeIdx ("let x".data.length - 0 + 1) "let x".data 0 1 =
        some (Except.ok (toks, fin)) → fin = "let x".data.length :=
  c9_bounds_safety "let x".data 0 1 (Nat.zero_le _)

/-! ## Agreement of the two scanner models

The cursor-level model `tokenizeIdx` and the suffix-level model `tokenizeF`
describe the same loop: scanning `src` from cursor `i` behaves exactly like
scanning the suffix `src.drop i`. -/

theorem drop_cons_of_get {src : List Char} {i : Nat} {c : Char}
    (h : src.get? i = some c) : src.drop i = c :: src.drop (i + 1) := by
  obtain ⟨hlt, hget⟩ := List.get?_eq_some.mp h
  rw [List.drop_eq_get_cons hlt, hget]

theorem head_drop_succ (src : List Char) (i : Nat) :
    (src.drop (i + 1)).head? = peekAt src i 1 := by
  rw [← List.get?_zero, List.get?_drop]
  rfl

theorem tail_drop_succ (src : List Char) (i : Nat) :
    (src.drop (i + 1)).tail = src.drop (i + 1 + 1) := by
  rw [← List.drop_one, List.drop_drop, Nat.add_comm]

theorem drop_of_ge {src : List Char} {i : Nat} (h : src.length ≤ i) :
    src.drop i = [] :=
  List.drop_eq_nil_of_le h

theorem scanWhileIdx_eq_scanWhile (p : Char → Bool) :
    ∀ (fuel : Nat) (src : List Char) (i : Nat) (acc : List Char),
    src.length - i < fuel → i ≤ src.length →
    ∃ k, scanWhileIdx p fuel src i acc =
        some (Except.ok ((scanWhile p acc (src.drop i)).1, k)) ∧
      src.drop k = (scanWhile p acc (src.drop i)).2 ∧ i ≤ k ∧ k ≤ src.length := by
  intro fuel
  induction fuel with
  | zero => intro src i acc h1 h2; omega
  | succ fuel ih =>
    intro src i acc h1 h2
    cases hp : peekAt src i 0 with
    | none =>
      have hge : src.length ≤ i + 0 := List.get?_eq_none.mp hp
      have hdrop : src.drop i = [] := drop_of_ge (by omega)
      refine ⟨i, ?_, ?_, le_refl i, h2⟩
      · simp [scanWhileIdx, hp, hdrop, scanWhile]
      · simp [hdrop, scanWhile]
    | some c =>
      have hp' : src.get? i = some c := hp
      have hlt : i < src.length := peekAt_zero_some hp
      have hdrop := drop_cons_of_get hp'
      have hcons : consumeAt src i = Except.ok (c, i + 1) := by simp only [consumeAt, hp']
      by_cases hpc : p c = true
      · obtain ⟨k, hscan, hdk, hik, hk⟩ := ih src (i + 1) (acc ++ [c]) (by omega) (by omega)
        refine ⟨k, ?_, ?_, by omega, hk⟩
        · simp only [scanWhileIdx, hp, hpc, if_pos, hcons]
          rw [hdrop]
          simp only [scanWhile, hpc, if_pos]
          exact hscan
        · rw [hdrop]
          simp only [scanWhile, hpc, if_pos]
          exact hdk
      · refine ⟨i, ?_, ?_, le_refl i, h2⟩
        · simp only [scanWhileIdx, hp, hpc]
          rw [hdrop]
          simp [scanWhile, hpc]
        · rw [hdrop]
          simp [scanWhile, hpc]

theorem skipWhileIdx_eq_skipWhile (p : Char → Bool) :
    ∀ (fuel : Nat) (src : List Char) (i : Nat),
    src.length - i < fuel → i ≤ src.length →
    ∃ k, skipWhileIdx p fuel src i = some (Except.ok k) ∧
      src.drop k = skipWhile p (src.drop i) ∧ i ≤ k ∧ k ≤ src.length := by
  intro fuel
  induction fuel with
  | zero => intro src i h1 h2; omega
  | succ fuel ih =>
    intro src i h1 h2
    cases hp : peekAt src i 0 with
    | none =>
      have hge : src.length ≤ i + 0 := List.get?_eq_none.mp hp
      have hdrop : src.drop i = [] := drop_of_ge (by omega)
      exact ⟨i, by simp [skipWhileIdx, hp], by simp [hdrop, skipWhile], le_refl i, h2⟩
    | some c =>
      have hp' : src.get? i = some c := hp
      have hlt : i < src.length := peekAt_zero_some hp
      have hdrop := drop_cons_of_get hp'
      have hcons : consumeAt src i = Except.ok (c, i + 1) := by simp only [consumeAt, hp']
      by_cases hpc : p c = true
      · obtain ⟨k, hskip, hdk, hik, hk⟩ := ih src (i + 1) (by omega) (by omega)
        refine ⟨k, ?_, ?_, by omega, hk⟩
        · simp only [skipWhileIdx, hp, hpc, if_pos, hcons]
          exact hskip
        · rw [hdrop]
          simp only [skipWhile, hpc, if_pos]
          exact hdk
      · refine ⟨i, ?_, ?_, le_refl i, h2⟩
        · simp [skipWhileIdx, hp, hpc]
        · rw [hdrop]
          simp [skipWhile, hpc]

theorem skipBlockIdx_eq_skipBlock :
    ∀ (fuel : Nat) (src : List Char) (i : Nat),
    src.length - i < fuel → i ≤ src.length →
    ∃ k m1 m2, skipBlockIdx fuel src i = some (Except.ok k) ∧
      maybeConsumeIdx src k = Except.ok m1 ∧ maybeConsumeIdx src m1 = Except.ok m2 ∧
      src.drop m2 = skipBlock (src.drop i) ∧ i ≤ m2 ∧ m2 ≤ src.length := by
  intro fuel
  induction fuel with
  | zero => intro src i h1 h2; omega
  | succ fuel ih =>
    intro src i h1 h2
    cases hp : peekAt src i 0 with
    | none =>
      have hge : src.length ≤ i + 0 := List.get?_eq_none.mp hp
      have hdrop : src.drop i = [] := drop_of_ge (by omega)
      refine ⟨i, i, i, by simp [skipBlockIdx, hp], ?_, ?_, ?_, le_refl i, h2⟩
      · simp [maybeConsumeIdx, hp]
      · simp [maybeConsumeIdx, hp]
      · simp [hdrop, skipBlock]
    | some c =>
      have hp' : src.get? i = some c := hp
      have hlt : i < src.length := peekAt_zero_some hp
      have hdrop := drop_cons_of_get hp'
      have hcons : consumeAt src i = Except.ok (c, i + 1) := by simp only [consumeAt, hp']
      by_cases hbc : c = '*' ∧ peekAt src i 1 = some '/'
      · have hlt1 : i + 1 < src.length := peekAt_one_some hbc.2
        have hp1 : src.get? (i + 1) = some '/' := hbc.2
        have hpk1 : peekAt src (i + 1) 0 = some '/' := hp1
        obtain ⟨d1, hcons1⟩ := consumeAt_ok_of_lt hlt1
        refine ⟨i, i + 1, i + 1 + 1, ?_, ?_, ?_, ?_, by omega, by omega⟩
        · simp [skipBlockIdx, hp, hbc]
        · simp only [maybeConsumeIdx, hp, hcons]
        · simp only [maybeConsumeIdx, hpk1, hcons1]
        · rw [hdrop]
          have hcond : c = '*' ∧ (src.drop (i + 1)).head? = some '/' := by
            rw [head_drop_succ]
            exact hbc
          simp only [skipBlock]
          rw [if_pos hcond, tail_drop_succ]
      · obtain ⟨k, m1, m2, hskip, hmc1, hmc2, hdk, him, hm⟩ := ih src (i + 1) (by omega) (by omega)
        refine ⟨k, m1, m2, ?_, hmc1, hmc2, ?_, by omega, hm⟩
        · simp only [skipBlockIdx, hp, hbc, if_neg, not_false_iff, hcons]
          exact hskip
        · rw [hdrop]
          have hcond : ¬(c = '*' ∧ (src.drop (i + 1)).head? = some '/') := by
            rw [head_drop_succ]
            exact hbc
          simp only [skipBlock]
          rw [if_neg hcond]
          exact hdk

theorem pushTokIdx_map (t : Token) (L : Nat) :
    ∀ r : Option (Except LexErr (List Token)),
    pushTokIdx t (Option.map (Except.map (fun ts => (ts, L))) r) =
      Option.map (Except.map (fun ts => (ts, L))) (pushTok t r)
  | none => rfl
  | some (Except.ok _) => rfl
  | some (Except.error _) => rfl

/-- Scanning `src` from cursor `i` is the same as scanning the suffix
`src.drop i`: the cursor-level model returns exactly the suffix-level
model's answer, with the final cursor at the end of the input. -/
theorem tokenizeIdx_eq_tokenizeF :
    ∀ (fuel : Nat) (src : List Char) (i line_count : Nat), i ≤ src.length →
    tokenizeIdx fuel src i line_count =
      Option.map (Except.map (fun ts => (ts, src.length)))
        (tokenizeF fuel (src.drop i) line_count) := by
  intro fuel
  induction fuel with
  | zero => intro src i lc h2; rfl
  | succ fuel ih =>
    intro src i lc h2
    cases hp : peekAt src i 0 with
    | none =>
      have hge : src.length ≤ i + 0 := List.get?_eq_none.mp hp
      have hi : i = src.length := by omega
      have hdrop : src.drop i = [] := drop_of_ge (by omega)
      rw [hdrop]
      simp only [tokenizeIdx, hp, tokenizeF, Option.map, Except.map]
      rw [hi]
    | some c =>
      have hp' : src.get? i = some c := hp
      have hlt : i < src.length := peekAt_zero_some hp
      have hdrop := drop_cons_of_get hp'
      have hcons : consumeAt src i = Except.ok (c, i + 1) := by simp only [consumeAt, hp']
      have hpk1 : (src.drop (i + 1)).head? = peekAt src i 1 := head_drop_succ src i
      rw [hdrop]
      cases hd : classify c (peekAt src i 1) with
      | word =>
        obtain ⟨k, hscan, hdk, hik, hk⟩ :=
          scanWhileIdx_eq_scanWhile isAlnum (src.length + 1) src (i + 1) [c]
            (by omega) (by omega)
        have hIH := ih src k lc hk
        simp only [tokenizeIdx, hp, hpk1, hd, hcons, hscan, tokenizeF]
        rw [hIH, hdk]
        exact pushTokIdx_map _ _ _
      | number =>
        obtain ⟨k, hscan, hdk, hik, hk⟩ :=
          scanWhileIdx_eq_scanWhile isDigit (src.length + 1) src (i + 1) [c]
            (by omega) (by omega)
        have hIH := ih src k lc hk
        simp only [tokenizeIdx, hp, hpk1, hd, hcons, hscan, tokenizeF]
        rw [hIH, hdk]
        exact pushTokIdx_map _ _ _
      | lineComment =>
        have hnext := classify_lineComment_next c (peekAt src i 1) hd
        have hlt1 : i + 1 < src.length := peekAt_one_some hnext
        obtain ⟨d2, hcons2⟩ := consumeAt_ok_of_lt hlt1
        obtain ⟨m, hskip, hdm, him, hm⟩ :=
          skipWhileIdx_eq_skipWhile (fun d => d != '\n') (src.length + 1) src (i + 1 + 1)
            (by omega) (by omega)
        have hIH := ih src m lc hm
        simp only [tokenizeIdx, hp, hpk1, hd, hcons, hcons2, hskip, tokenizeF]
        rw [hIH, hdm, tail_drop_succ]
      | blockComment =>
        have hnext := classify_blockComment_next c (peekAt src i 1) hd
        have hlt1 : i + 1 < src.length := peekAt_one_some hnext
        obtain ⟨d2, hcons2⟩ := consumeAt_ok_of_lt hlt1
        obtain ⟨k, m1, m2, hskip, hmc1, hmc2, hdm2, him, hm⟩ :=
          skipBlockIdx_eq_skipBlock (src.length + 1) src (i + 1 + 1) (by omega) (by omega)
        have hIH := ih src m2 lc hm
        simp only [tokenizeIdx, hp, hpk1, hd, hcons, hcons2, hskip, hmc1, hmc2, tokenizeF]
        rw [hIH, hdm2, tail_drop_succ]
      | punct t =>
        have hIH := ih src (i + 1) lc (by omega)
        simp only [tokenizeIdx, hp, hpk1, hd, hcons, tokenizeF]
        rw [hIH]
        exact pushTokIdx_map _ _ _
      | newline =>
        have hIH := ih src (i + 1) (lc + 1) (by omega)
        simp only [tokenizeIdx, hp, hpk1, hd, hcons, tokenizeF]
        exact hIH
      | space =>
        have hIH := ih src (i + 1) lc (by omega)
        simp only [tokenizeIdx, hp, hpk1, hd, hcons, tokenizeF]
        exact hIH
      | bad =>
        simp only [tokenizeIdx, hp, hpk1, hd, tokenizeF]
        rfl
